import Mathlib

/-!
Shallow embedding of the luna code-generation pass (src/src/Visitor.cpp) and of
the GC allocation interface (src/unnamed/part_000, a header of the GC), for
checking the natural-language specification against the code.

Conventions of the embedding:
* C++ `int` registers and value counts become `Int`; register indices are small
  non-negative values, and `GetNameRegister` can return `-1` as in the source.
* Interned strings (`String *`) become `String`: the interner guarantees one
  object per distinct content, so pointer identity coincides with content
  equality.
* Heap objects (`Function`, `Closure`) are addressed by their index in an
  allocation list, which models pointer identity.
* `assert` is modelled with release (`NDEBUG`) semantics: the check vanishes
  and control falls through, which is what the compiled code does.
* Numeric literal payloads are modelled as `Int`: the claims only involve
  integral literals and value identity, never floating-point arithmetic.
-/

namespace Luna

/-- Token kinds read by the code generator (`Token_Number`, `Token_String`,
`Token_Id`); every other kind reaches the final assert of `Visit(Terminator*)`
and is collapsed into one constructor. -/
inductive TokenT where
  | Token_Number
  | Token_String
  | Token_Id
  | Token_Other
deriving DecidableEq, Repr

/-- `TokenDetail`: kind, number-or-string payload and source line. -/
structure TokenDetail where
  token_ : TokenT
  number_ : Int
  str_ : String
  line_ : Nat
deriving DecidableEq, Repr

instance : Inhabited TokenDetail := ⟨⟨.Token_Other, 0, "", 0⟩⟩

/-- Opcodes emitted by `CodeGenerateVisitor`. -/
inductive OpType where
  | OpType_LoadConst
  | OpType_Move
  | OpType_SetTop
  | OpType_GetUpTable
  | OpType_Call
deriving DecidableEq, Repr

/-- Instruction encodings used by the code generator: `ACode`, `ABCode`,
`ABCCode` and `AsBxCode`, kept symbolic instead of packed into 32 bits. -/
inductive Instruction where
  | ACode (op : OpType) (a : Int)
  | ABCode (op : OpType) (a b : Int)
  | ABCCode (op : OpType) (a b c : Int)
  | AsBxCode (op : OpType) (a sbx : Int)
deriving DecidableEq, Repr

/-- Modelled from the spec: the `EXP_VALUE_COUNT_ANY` sentinel ("multret").
Its defining header is not under src/; the code only compares it for
(in)equality against non-negative counts, and the spec calls it a signed
sentinel, so any negative value is faithful. -/
def EXP_VALUE_COUNT_ANY : Int := -1

/-- Modelled from the spec: the index of the global-environment upvalue
(`ENV_TABLE_INDEX`, spec name `ENV_UPVALUE_INDEX`); its defining header is not
under src/.  No claim depends on its numeric value. -/
def ENV_TABLE_INDEX : Int := 0

/-- Modelled from the spec: the `Function` prototype object (Function.h/.cpp
are not under src/).  Per spec section 3 and 6 it owns the instruction vector,
two constant pools (numbers and interned strings) indexable by insertion
order, the module name and level, the superior back-reference, and the
`next_register` watermark. -/
structure Function where
  module_ : String
  level_ : Nat
  superior_ : Option Nat
  instructions_ : List (Instruction × Nat)
  const_numbers_ : List Int
  const_strings_ : List String
  next_register_ : Int
deriving DecidableEq, Repr

instance : Inhabited Function := ⟨⟨"", 0, none, [], [], [], 0⟩⟩

/-- Modelled from the spec: peek the register watermark. -/
def Function.GetNextRegister (f : Function) : Int := f.next_register_

/-- Modelled from the spec: reserve the next register and bump the
watermark. -/
def Function.AllocaNextRegister (f : Function) : Function × Int :=
  ({ f with next_register_ := f.next_register_ + 1 }, f.next_register_)

/-- Modelled from the spec: restore the register watermark. -/
def Function.SetNextRegister (f : Function) (r : Int) : Function :=
  { f with next_register_ := r }

/-- Modelled from the spec: append an instruction with its source line. -/
def Function.AddInstruction (f : Function) (i : Instruction) (line : Nat) :
    Function :=
  { f with instructions_ := f.instructions_ ++ [(i, line)] }

/-- Modelled from the spec: intern a number into the constant pool,
de-duplicated by value, returning its index by insertion order. -/
def Function.AddConstNumber (f : Function) (n : Int) : Function × Int :=
  match f.const_numbers_.findIdx? (fun m => m == n) with
  | some i => (f, Int.ofNat i)
  | none =>
      ({ f with const_numbers_ := f.const_numbers_ ++ [n] },
       Int.ofNat f.const_numbers_.length)

/-- Modelled from the spec: intern a string into the constant pool,
de-duplicated by identity (= content, strings being interned). -/
def Function.AddConstString (f : Function) (str : String) : Function × Int :=
  match f.const_strings_.findIdx? (fun m => m == str) with
  | some i => (f, Int.ofNat i)
  | none =>
      ({ f with const_strings_ := f.const_strings_ ++ [str] },
       Int.ofNat f.const_strings_.length)

/-- `ScopeName`: a name and its register index in the owning function. -/
structure ScopeName where
  name_ : String
  register_ : Int
deriving DecidableEq, Repr

/-- One record of the `NameScope` chain: the start index it remembered in the
shared name list, and the owner function (by allocation index, nullable). -/
structure ScopeRec where
  start_ : Nat
  owner_ : Option Nat
deriving DecidableEq, Repr

/-- `NameScope::IsBelongsToScope`: scan the shared name list from the scope's
start index to its current end for `n`; `some r` plays the role of the `true`
return with `*reg = r`. -/
def IsBelongsToScope (names : List ScopeName) (sc : ScopeRec) (n : String) :
    Option Int :=
  ((names.drop sc.start_).find? (fun e => e.name_ == n)).map (fun e => e.register_)

/-- `NameScope::GetNameRegister`: the register of `n` in this scope, `-1` when
absent. -/
def GetNameRegister (names : List ScopeName) (sc : ScopeRec) (n : String) : Int :=
  (IsBelongsToScope names sc n).getD (-1)

/-- `NameScope::GetBlongsToScope`: walk the scope chain from the innermost
scope outward and return the first scope that contains `n` (the C++ also
returns that scope's owner function, recoverable as `.owner_`). -/
def GetBlongsToScope (scopes : List ScopeRec) (names : List ScopeName)
    (n : String) : Option ScopeRec :=
  match scopes with
  | [] => none
  | sc :: rest =>
      if (IsBelongsToScope names sc n).isSome then some sc
      else GetBlongsToScope rest names n

/-- `FunctionGenerateState`: per-function pending `(register, token)` pairs and
the two value-count stacks (head of the list is the top of the stack). -/
structure FunctionGenerateState where
  names_register_ : List (Int × TokenDetail)
  exp_value_count_ : List Int
  exp_list_value_count_ : List Int
deriving DecidableEq, Repr

instance : Inhabited FunctionGenerateState := ⟨⟨[], [], []⟩⟩

def FunctionGenerateState.PushExpValueCount (fs : FunctionGenerateState)
    (count : Int) : FunctionGenerateState :=
  { fs with exp_value_count_ := count :: fs.exp_value_count_ }

/-- Pops the top of `exp_value_count_`; on an empty stack it returns `0` and
leaves the state unchanged, exactly as the source does. -/
def FunctionGenerateState.PopExpValueCount (fs : FunctionGenerateState) :
    Int × FunctionGenerateState :=
  match fs.exp_value_count_ with
  | [] => (0, fs)
  | v :: vs => (v, { fs with exp_value_count_ := vs })

def FunctionGenerateState.PushExpListValueCount (fs : FunctionGenerateState)
    (count : Int) : FunctionGenerateState :=
  { fs with exp_list_value_count_ := count :: fs.exp_list_value_count_ }

/-- Pops the top of `exp_list_value_count_`; `0` on an empty stack, as in the
source. -/
def FunctionGenerateState.PopExpListValueCount (fs : FunctionGenerateState) :
    Int × FunctionGenerateState :=
  match fs.exp_list_value_count_ with
  | [] => (0, fs)
  | v :: vs => (v, { fs with exp_list_value_count_ := vs })

/-- Value type tags (spec section 3). -/
inductive ValueT where
  | ValueT_Nil
  | ValueT_Bool
  | ValueT_Number
  | ValueT_String
  | ValueT_Table
  | ValueT_Closure
deriving DecidableEq, Repr

/-- A tagged operand-stack value; only the closure payload matters to the
visitor, other payloads are irrelevant to the claims. -/
structure Value where
  type_ : ValueT
  closure_ : Option Nat
deriving DecidableEq, Repr

/-- Upvalue kinds (`Upvalue::Stack` binds a parent-frame stack slot,
`Upvalue::Upvalue` a parent closure's upvalue). -/
inductive UpvalueKind where
  | Stack
  | Upvalue
deriving DecidableEq, Repr

/-- Modelled from the spec: a `Closure` binds a `Function` prototype (by
allocation index) to a list of upvalues; an upvalue here is the captured
object (the env table id) with its kind. -/
structure Closure where
  prototype_ : Option Nat
  upvalues_ : List (Nat × UpvalueKind)
deriving DecidableEq, Repr

/-- The whole state threaded through `CodeGenerateVisitor`: the allocated
`Function` and `Closure` objects, the interpreter `State` pieces the visitor
touches (global env table id and operand stack), the shared scope name list
with its scope chain (`ScopeNameList`), the `GenerateState` stack of
per-function states (head is the most recently pushed), and the current
function `func_`. -/
structure CGState where
  functions : List Function
  closures : List Closure
  global_ : Nat
  stack_ : List Value
  name_list_ : List ScopeName
  scopes : List ScopeRec
  gen_states : List FunctionGenerateState
  cur_func : Option Nat
deriving DecidableEq, Repr

namespace CGState

/-- Dereference `func_` (the theorems assume the index is valid; an invalid
index yields the default function, mirroring nothing observable). -/
def curFunc (s : CGState) : Function :=
  match s.cur_func with
  | none => default
  | some i => s.functions.getD i default

def modifyFunc (s : CGState) (g : Function → Function) : CGState :=
  match s.cur_func with
  | none => s
  | some i => { s with functions := s.functions.set i (g (s.functions.getD i default)) }

def getNextRegister (s : CGState) : Int := s.curFunc.GetNextRegister

def allocaNextRegister (s : CGState) : Int × CGState :=
  (s.curFunc.GetNextRegister, s.modifyFunc (fun f => (f.AllocaNextRegister).1))

def setNextRegister (s : CGState) (r : Int) : CGState :=
  s.modifyFunc (fun f => f.SetNextRegister r)

def addInstruction (s : CGState) (i : Instruction) (line : Nat) : CGState :=
  s.modifyFunc (fun f => f.AddInstruction i line)

def addConstNumber (s : CGState) (n : Int) : Int × CGState :=
  ((s.curFunc.AddConstNumber n).2, s.modifyFunc (fun f => (f.AddConstNumber n).1))

def addConstString (s : CGState) (str : String) : Int × CGState :=
  ((s.curFunc.AddConstString str).2, s.modifyFunc (fun f => (f.AddConstString str).1))

/-- The state `func_state_` points at: the back of `func_states_`. -/
def curFS (s : CGState) : FunctionGenerateState := s.gen_states.headD default

def modifyFS (s : CGState) (g : FunctionGenerateState → FunctionGenerateState) :
    CGState :=
  match s.gen_states with
  | [] => s
  | fs :: rest => { s with gen_states := g fs :: rest }

def pushExpValueCount (s : CGState) (c : Int) : CGState :=
  s.modifyFS (fun fs => fs.PushExpValueCount c)

def popExpValueCount (s : CGState) : Int × CGState :=
  match s.gen_states with
  | [] => (0, s)
  | fs :: rest =>
      let r := fs.PopExpValueCount
      (r.1, { s with gen_states := r.2 :: rest })

def pushExpListValueCount (s : CGState) (c : Int) : CGState :=
  s.modifyFS (fun fs => fs.PushExpListValueCount c)

def popExpListValueCount (s : CGState) : Int × CGState :=
  match s.gen_states with
  | [] => (0, s)
  | fs :: rest =>
      let r := fs.PopExpListValueCount
      (r.1, { s with gen_states := r.2 :: rest })

/-- `NameScope` constructor: push a scope starting at the current length of
the shared name list; the owner is the argument if non-null, otherwise the
previous scope's owner. -/
def enterScope (s : CGState) (owner : Option Nat) : CGState :=
  let ow := match owner with
            | some f => some f
            | none => (s.scopes.head?).bind (fun sc => sc.owner_)
  { s with scopes := ⟨s.name_list_.length, ow⟩ :: s.scopes }

/-- `NameScope` destructor: truncate the shared name list back to the scope's
start index and restore the previous scope. -/
def exitScope (s : CGState) : CGState :=
  match s.scopes with
  | [] => s
  | sc :: rest => { s with name_list_ := s.name_list_.take sc.start_, scopes := rest }

/-- The current scope's owner function (`current_scope_->GetOwnerFunction()`). -/
def currentOwner (s : CGState) : Option Nat :=
  (s.scopes.head?).bind (fun sc => sc.owner_)

end CGState

/-! ## AST

Only the node shapes the visitor gives non-empty code to are distinguished;
every expression node whose `Visit` body is empty (`BinaryExpression`,
`UnaryExpression`, `FunctionBody`, `TableDefine`, `IndexAccessor`,
`MemberAccessor`, `MemberFuncCall`, ...) is collapsed into `stubExpr`, and
likewise the statements with empty `Visit` bodies into `stubStmt`. -/

mutual
inductive Expr where
  | terminator (t : TokenDetail)
  | normalFuncCall (caller : Expr) (args : FuncCallArgs)
  | stubExpr
inductive FuncCallArgs where
  | strOrTable (arg : Expr)
  | expList (arg : Option ExpList)
inductive ExpList where
  | mk (exps : List Expr)
end

theorem exprSizeOfPos (e : Expr) : 0 < sizeOf e := by
  cases e <;> simp_arith

theorem argsSizeOfPos (a : FuncCallArgs) : 0 < sizeOf a := by
  cases a <;> simp_arith

/-- Statements of a `Block`: `LocalNameListStatement` (a `NameList` of tokens
plus an optional initialiser `ExpressionList`), a `NormalFuncCall` in
statement position, and the stub statements. -/
inductive Stmt where
  | localNameList (names : List TokenDetail) (exp_list : Option ExpList)
  | funcCallStmt (caller : Expr) (args : FuncCallArgs)
  | stubStmt

/-- A `Block`: ordered statements plus an optional return statement (whose
visit is an empty stub). -/
structure Block where
  statements_ : List Stmt
  return_stmt_ : Bool

/-- A `Chunk`: the module name and the top-level block. -/
structure Chunk where
  module_ : String
  block_ : Block

/-! ## The visitor

Each `Visit` overload becomes one function from the node and a `CGState` to
the updated `CGState`, with the statement order of the C++ bodies preserved. -/

open CGState

/-- `Visit(Terminator*)` (Visitor.cpp lines 409-469). -/
def visitTerminator (t : TokenDetail) (s : CGState) : CGState :=
  let p := s.popExpValueCount
  let value_count := p.1
  let s := p.2
  match t.token_ with
  | .Token_Number =>
      let q := s.addConstNumber t.number_
      let s := q.2
      if value_count ≠ 0 then
        let a := s.allocaNextRegister
        a.2.addInstruction (.ABCode .OpType_LoadConst a.1 q.1) t.line_
      else s
  | .Token_String =>
      let q := s.addConstString t.str_
      let s := q.2
      if value_count ≠ 0 then
        let a := s.allocaNextRegister
        a.2.addInstruction (.ABCode .OpType_LoadConst a.1 q.1) t.line_
      else s
  | .Token_Id =>
      match GetBlongsToScope s.scopes s.name_list_ t.str_ with
      | none =>
          -- the id is not in any scope, so it lives in the env table
          let q := s.addConstString t.str_
          let s := q.2
          if value_count ≠ 0 then
            let a := s.allocaNextRegister
            let s := a.2.addInstruction (.ABCode .OpType_LoadConst a.1 q.1) t.line_
            s.addInstruction (.ABCCode .OpType_GetUpTable a.1 ENV_TABLE_INDEX a.1) t.line_
          else s
      | some sc =>
          if sc.owner_ = s.currentOwner then
            let src_reg := GetNameRegister s.name_list_ sc t.str_
            if value_count ≠ 0 then
              let a := s.allocaNextRegister
              a.2.addInstruction (.ABCode .OpType_Move a.1 src_reg) t.line_
            else s
          else
            -- upvalue access: only an assert in the source, so no code runs
            s
  | .Token_Other =>
      -- unknown terminator kind: only an assert in the source
      s

/-- One iteration of the loop of `Visit(NameList*)` (lines 487-500): try to
add the name to the current scope at the current next register, advancing the
watermark only when the name is new, and record `(register, token)`. -/
def nameListStep (s : CGState) (n : TokenDetail) : CGState :=
  let reg := s.getNextRegister
  match s.scopes.head? with
  | none => s
  | some sc =>
      match IsBelongsToScope s.name_list_ sc n.str_ with
      | some r =>
          s.modifyFS (fun fs => { fs with names_register_ := fs.names_register_ ++ [(r, n)] })
      | none =>
          let s := { s with name_list_ := s.name_list_ ++ [({ name_ := n.str_, register_ := reg } : ScopeName)] }
          let s := (s.allocaNextRegister).2
          s.modifyFS (fun fs => { fs with names_register_ := fs.names_register_ ++ [(reg, n)] })

/-- `Visit(NameList*)`. -/
def visitNameList (names : List TokenDetail) (s : CGState) : CGState :=
  names.foldl nameListStep s

mutual
/-- Dispatch of `Accept` on an expression node. -/
def visitExpr : Expr → CGState → CGState
  | .terminator t, s => visitTerminator t s
  | .normalFuncCall caller args, s => visitNormalFuncCall caller args s
  | .stubExpr, s => s
termination_by e _ => sizeOf e
decreasing_by
all_goals simp_wf
all_goals omega

/-- `Visit(NormalFuncCall*)` (lines 526-539). -/
def visitNormalFuncCall (caller : Expr) (args : FuncCallArgs) (s : CGState) :
    CGState :=
  let reg := s.getNextRegister
  let p := s.popExpValueCount
  let result_count := p.1
  let s := p.2
  let s := s.pushExpValueCount 1
  let s := visitExpr caller s
  let s := visitFuncCallArgs args s
  s.addInstruction (.AsBxCode .OpType_Call reg result_count) 0
termination_by sizeOf caller + sizeOf args
decreasing_by
all_goals simp_wf
all_goals try omega
all_goals first
  | (have h := argsSizeOfPos args; omega)
  | (have h := exprSizeOfPos caller; omega)

/-- `Visit(FuncCallArgs*)` (lines 545-563). -/
def visitFuncCallArgs : FuncCallArgs → CGState → CGState
  | .strOrTable arg, s => visitExpr arg (s.pushExpValueCount 1)
  | .expList none, s => s
  | .expList (some el), s => visitExpList el (s.pushExpListValueCount EXP_VALUE_COUNT_ANY)
termination_by a _ => sizeOf a
decreasing_by
all_goals simp_wf
all_goals omega

/-- `Visit(ExpressionList*)` (lines 565-591): pop the expected list count and
run the distribution loop. -/
def visitExpList : ExpList → CGState → CGState
  | .mk exps, s =>
      let p := s.popExpListValueCount
      visitExpListLoop exps p.1 p.2
termination_by l _ => sizeOf l
decreasing_by
all_goals simp_wf
all_goals omega

/-- The loop body of `Visit(ExpressionList*)`: `value_count` is the remaining
expected count, the head of the list is expression `i`, and the list being a
singleton is `i == exp_count - 1`. -/
def visitExpListLoop : List Expr → Int → CGState → CGState
  | [], _, s => s
  | e :: rest, value_count, s =>
      if value_count = 0 then
        visitExpListLoop rest value_count (visitExpr e (s.pushExpValueCount 0))
      else
        let count := if rest.isEmpty then value_count else 1
        let s := s.pushExpValueCount count
        let value_count' := if value_count ≠ EXP_VALUE_COUNT_ANY then value_count - count
                            else value_count
        visitExpListLoop rest value_count' (visitExpr e s)
termination_by l _ _ => sizeOf l
decreasing_by
all_goals simp_wf
all_goals omega
end

/-- The `Move` emission loop of `Visit(LocalNameListStatement*)` (lines
385-392): for `i` from `i0` below `names`, emit
`Move(names_register_[i].register_, reg + i)` at the token's line. -/
def emitMovesFrom (reg : Int) (names : Nat) (i : Nat) (s : CGState) : CGState :=
  if i < names then
    let nr := (s.curFS).names_register_.getD i (0, default)
    let s := s.addInstruction (.ABCode .OpType_Move nr.1 (reg + Int.ofNat i)) nr.2.line_
    emitMovesFrom reg names (i + 1) s
  else s
termination_by names - i

/-- Dispatch of `Accept` on a statement; `Visit(LocalNameListStatement*)` is
lines 369-399. -/
def visitStmt : Stmt → CGState → CGState
  | .stubStmt, s => s
  | .funcCallStmt caller args, s => visitNormalFuncCall caller args s
  | .localNameList names exp_list, s =>
      let s := visitNameList names s
      let reg := s.getNextRegister
      let cnt := (s.curFS).names_register_.length
      let s := match exp_list with
               | none => s
               | some el => visitExpList el (s.pushExpListValueCount (Int.ofNat cnt))
      let s := emitMovesFrom reg cnt 0 s
      let s := s.modifyFS (fun fs => { fs with names_register_ := [] })
      let s := s.setNextRegister reg
      s.addInstruction (.ACode .OpType_SetTop reg) 0

/-- `Visit(Block*)` (lines 299-315): enter a scope owned by the current
function, remember the watermark, visit the statements and the optional
return statement (a stub), restore the watermark, emit `SetTop`, and leave
the scope when the `NameScope` destructor runs. -/
def visitBlock (b : Block) (s : CGState) : CGState :=
  let s := s.enterScope s.cur_func
  let reg := s.getNextRegister
  let s := b.statements_.foldl (fun t st => visitStmt st t) s
  let s := s.setNextRegister reg
  let s := s.addInstruction (.ACode .OpType_SetTop reg) 0
  s.exitScope

/-- `Visit(Chunk*)` (lines 275-297): allocate the top-level `Function` with
base info `(module, 0)` and superior `func_`, make it current, push a fresh
per-function generation state, visit the block, then allocate the `Closure`
over that prototype with the global env table as its sole `Stack` upvalue and
push it as a `Closure`-typed value on the operand stack. -/
def visitChunk (c : Chunk) (s : CGState) : CGState :=
  let fid := s.functions.length
  let f : Function := ⟨c.module_, 0, s.cur_func, [], [], [], 0⟩
  let s := { s with functions := s.functions ++ [f], cur_func := some fid }
  let s := { s with gen_states := (⟨[], [], []⟩ : FunctionGenerateState) :: s.gen_states }
  let s := visitBlock c.block_ s
  let cid := s.closures.length
  let cl : Closure := ⟨some fid, [(s.global_, UpvalueKind.Stack)]⟩
  let s := { s with closures := s.closures ++ [cl] }
  { s with stack_ := s.stack_ ++ [⟨.ValueT_Closure, some cid⟩] }

/-! ## Preservation of the allocation-level observables

Every visit below a `Chunk` only mutates the current function's code fields,
the scope structures and the per-function generation state; it never
allocates functions or closures, never touches the operand stack, the global
table, `func_`, or the number of generation-state frames.  `obs` packages
those observables. -/

/-- The base info of a function: module name, level, superior link. -/
def funcBase (f : Function) : String × Nat × Option Nat :=
  (f.module_, f.level_, f.superior_)

/-- Observables untouched by everything except `visitChunk`. -/
def obs (s : CGState) :
    List (String × Nat × Option Nat) × Option Nat × List Closure × List Value
      × Nat × Nat :=
  (s.functions.map funcBase, s.cur_func, s.closures, s.stack_, s.global_,
   s.gen_states.length)

theorem set_map_getD {α β : Type} (l : List α) (i : Nat) (d : α) (f : α → β)
    (g : α → α) (h : ∀ a, f (g a) = f a) :
    (l.map f).set i (f (g (l.getD i d))) = l.map f := by
  induction l generalizing i with
  | nil => simp
  | cons a t ih =>
      cases i with
      | zero => simp [h]
      | succ j => simpa using ih j

theorem obs_modifyFunc (s : CGState) (g : Function → Function)
    (h : ∀ f, funcBase (g f) = funcBase f) :
    obs (s.modifyFunc g) = obs s := by
  unfold CGState.modifyFunc
  cases hc : s.cur_func with
  | none => rfl
  | some i =>
      have hmap : (s.functions.set i (g (s.functions.getD i default))).map funcBase
          = s.functions.map funcBase := by
        rw [List.map_set]
        exact set_map_getD s.functions i default funcBase g h
      refine Eq.trans ?_ (?_ : obs { s with cur_func := some i } = obs s)
      · show obs { s with functions := s.functions.set i (g (s.functions.getD i default)), cur_func := some i }
            = obs { s with cur_func := some i }
        unfold obs
        dsimp only
        rw [hmap]
      · unfold obs
        dsimp only
        rw [hc]

theorem obs_addInstruction (s : CGState) (i : Instruction) (line : Nat) :
    obs (s.addInstruction i line) = obs s :=
  obs_modifyFunc s _ (fun _ => rfl)

theorem obs_setNextRegister (s : CGState) (r : Int) :
    obs (s.setNextRegister r) = obs s :=
  obs_modifyFunc s _ (fun _ => rfl)

theorem obs_allocaNextRegister (s : CGState) :
    obs (s.allocaNextRegister).2 = obs s :=
  obs_modifyFunc s _ (fun _ => rfl)

theorem obs_addConstNumber (s : CGState) (n : Int) :
    obs (s.addConstNumber n).2 = obs s := by
  refine obs_modifyFunc s _ (fun f => ?_)
  unfold Function.AddConstNumber
  cases f.const_numbers_.findIdx? (fun m => m == n) <;> rfl

theorem obs_addConstString (s : CGState) (str : String) :
    obs (s.addConstString str).2 = obs s := by
  refine obs_modifyFunc s _ (fun f => ?_)
  unfold Function.AddConstString
  cases f.const_strings_.findIdx? (fun m => m == str) <;> rfl

theorem obs_modifyFS (s : CGState)
    (g : FunctionGenerateState → FunctionGenerateState) :
    obs (s.modifyFS g) = obs s := by
  unfold CGState.modifyFS
  cases h : s.gen_states with
  | nil => rfl
  | cons fs rest => simp [obs, h]

theorem obs_pushExpValueCount (s : CGState) (c : Int) :
    obs (s.pushExpValueCount c) = obs s :=
  obs_modifyFS s _

theorem obs_popExpValueCount (s : CGState) :
    obs (s.popExpValueCount).2 = obs s := by
  unfold CGState.popExpValueCount
  cases h : s.gen_states with
  | nil => rfl
  | cons fs rest => simp [obs, h]

theorem obs_pushExpListValueCount (s : CGState) (c : Int) :
    obs (s.pushExpListValueCount c) = obs s :=
  obs_modifyFS s _

theorem obs_popExpListValueCount (s : CGState) :
    obs (s.popExpListValueCount).2 = obs s := by
  unfold CGState.popExpListValueCount
  cases h : s.gen_states with
  | nil => rfl
  | cons fs rest => simp [obs, h]

theorem obs_enterScope (s : CGState) (owner : Option Nat) :
    obs (s.enterScope owner) = obs s := rfl

theorem obs_exitScope (s : CGState) : obs (s.exitScope) = obs s := by
  unfold CGState.exitScope
  cases h : s.scopes with
  | nil => rfl
  | cons sc rest => simp [obs, h]

theorem obs_visitTerminator (t : TokenDetail) (s : CGState) :
    obs (visitTerminator t s) = obs s := by
  unfold visitTerminator
  cases t.token_ with
  | Token_Number =>
      simp only []
      split
      · rw [obs_addInstruction, obs_allocaNextRegister, obs_addConstNumber,
          obs_popExpValueCount]
      · rw [obs_addConstNumber, obs_popExpValueCount]
  | Token_String =>
      simp only []
      split
      · rw [obs_addInstruction, obs_allocaNextRegister, obs_addConstString,
          obs_popExpValueCount]
      · rw [obs_addConstString, obs_popExpValueCount]
  | Token_Id =>
      simp only []
      split
      · split
        · rw [obs_addInstruction, obs_addInstruction, obs_allocaNextRegister,
            obs_addConstString, obs_popExpValueCount]
        · rw [obs_addConstString, obs_popExpValueCount]
      · split
        · split
          · rw [obs_addInstruction, obs_allocaNextRegister, obs_popExpValueCount]
          · rw [obs_popExpValueCount]
        · rw [obs_popExpValueCount]
  | Token_Other => rw [obs_popExpValueCount]

theorem obs_nameListStep (s : CGState) (n : TokenDetail) :
    obs (nameListStep s n) = obs s := by
  unfold nameListStep
  cases s.scopes.head? with
  | none => rfl
  | some sc =>
      simp only []
      cases IsBelongsToScope s.name_list_ sc n.str_ with
      | some r => rw [obs_modifyFS]
      | none =>
          rw [obs_modifyFS]
          have h1 : obs ({ s with name_list_ := s.name_list_ ++
              [({ name_ := n.str_, register_ := s.getNextRegister } : ScopeName)] }) = obs s := rfl
          rw [obs_allocaNextRegister, h1]

theorem obs_visitNameList (names : List TokenDetail) (s : CGState) :
    obs (visitNameList names s) = obs s := by
  unfold visitNameList
  induction names generalizing s with
  | nil => rfl
  | cons n rest ih => rw [List.foldl_cons, ih, obs_nameListStep]

mutual
theorem obs_visitExpr (e : Expr) (s : CGState) :
    obs (visitExpr e s) = obs s := by
  cases e with
  | terminator t => simp only [visitExpr]; exact obs_visitTerminator t s
  | normalFuncCall caller args =>
      simp only [visitExpr]; exact obs_visitNormalFuncCall caller args s
  | stubExpr => simp only [visitExpr]
termination_by sizeOf e
decreasing_by
all_goals simp_wf
all_goals omega

theorem obs_visitNormalFuncCall (caller : Expr) (args : FuncCallArgs)
    (s : CGState) : obs (visitNormalFuncCall caller args s) = obs s := by
  simp only [visitNormalFuncCall]
  rw [obs_addInstruction, obs_visitFuncCallArgs, obs_visitExpr,
    obs_pushExpValueCount, obs_popExpValueCount]
termination_by sizeOf caller + sizeOf args
decreasing_by
all_goals simp_wf
all_goals try omega
all_goals first
  | (have h := argsSizeOfPos args; omega)
  | (have h := exprSizeOfPos caller; omega)

theorem obs_visitFuncCallArgs (a : FuncCallArgs) (s : CGState) :
    obs (visitFuncCallArgs a s) = obs s := by
  cases a with
  | strOrTable arg =>
      simp only [visitFuncCallArgs]
      rw [obs_visitExpr, obs_pushExpValueCount]
  | expList arg =>
      cases arg with
      | none => simp only [visitFuncCallArgs]
      | some el =>
          simp only [visitFuncCallArgs]
          rw [obs_visitExpList, obs_pushExpListValueCount]
termination_by sizeOf a
decreasing_by
all_goals simp_wf
all_goals omega

theorem obs_visitExpList (l : ExpList) (s : CGState) :
    obs (visitExpList l s) = obs s := by
  cases l with
  | mk exps =>
      simp only [visitExpList]
      rw [obs_visitExpListLoop, obs_popExpListValueCount]
termination_by sizeOf l
decreasing_by
all_goals simp_wf
all_goals omega

theorem obs_visitExpListLoop (l : List Expr) (v : Int) (s : CGState) :
    obs (visitExpListLoop l v s) = obs s := by
  cases l with
  | nil => simp only [visitExpListLoop]
  | cons e rest =>
      simp only [visitExpListLoop]
      split
      · rw [obs_visitExpListLoop, obs_visitExpr, obs_pushExpValueCount]
      · rw [obs_visitExpListLoop, obs_visitExpr, obs_pushExpValueCount]
termination_by sizeOf l
decreasing_by
all_goals simp_wf
all_goals omega
end

theorem obs_emitMovesFrom (reg : Int) (names i : Nat) (s : CGState) :
    obs (emitMovesFrom reg names i s) = obs s := by
  rw [emitMovesFrom]
  split
  · rw [obs_emitMovesFrom, obs_addInstruction]
  · rfl
termination_by names - i
decreasing_by
all_goals simp_wf
all_goals omega

theorem obs_visitStmt (st : Stmt) (s : CGState) :
    obs (visitStmt st s) = obs s := by
  cases st with
  | stubStmt => simp only [visitStmt]
  | funcCallStmt caller args =>
      simp only [visitStmt]
      exact obs_visitNormalFuncCall caller args s
  | localNameList names exp_list =>
      simp only [visitStmt]
      cases exp_list with
      | none =>
          rw [obs_addInstruction, obs_setNextRegister, obs_modifyFS,
            obs_emitMovesFrom, obs_visitNameList]
      | some el =>
          rw [obs_addInstruction, obs_setNextRegister, obs_modifyFS,
            obs_emitMovesFrom, obs_visitExpList, obs_pushExpListValueCount,
            obs_visitNameList]

theorem obs_visitStmts (sts : List Stmt) (s : CGState) :
    obs (sts.foldl (fun t st => visitStmt st t) s) = obs s := by
  induction sts generalizing s with
  | nil => rfl
  | cons st rest ih => rw [List.foldl_cons, ih, obs_visitStmt]

theorem obs_visitBlock (b : Block) (s : CGState) :
    obs (visitBlock b s) = obs s := by
  simp only [visitBlock]
  rw [obs_exitScope, obs_addInstruction, obs_setNextRegister, obs_visitStmts,
    obs_enterScope]

theorem obs_proj_funcsMap {s t : CGState} (h : obs s = obs t) :
    s.functions.map funcBase = t.functions.map funcBase :=
  congrArg (fun x => x.1) h

theorem obs_proj_funcsLen {s t : CGState} (h : obs s = obs t) :
    s.functions.length = t.functions.length := by
  have h2 := congrArg List.length (obs_proj_funcsMap h)
  simpa using h2

theorem obs_proj_curFunc {s t : CGState} (h : obs s = obs t) :
    s.cur_func = t.cur_func :=
  congrArg (fun x => x.2.1) h

theorem obs_proj_closures {s t : CGState} (h : obs s = obs t) :
    s.closures = t.closures :=
  congrArg (fun x => x.2.2.1) h

theorem obs_proj_stack {s t : CGState} (h : obs s = obs t) :
    s.stack_ = t.stack_ :=
  congrArg (fun x => x.2.2.2.1) h

theorem obs_proj_global {s t : CGState} (h : obs s = obs t) :
    s.global_ = t.global_ :=
  congrArg (fun x => x.2.2.2.2.1) h

theorem obs_proj_genlen {s t : CGState} (h : obs s = obs t) :
    s.gen_states.length = t.gen_states.length :=
  congrArg (fun x => x.2.2.2.2.2) h

/-! ## GC allocation interface

From src/unnamed/part_000 (the GC header): the three generations, the
allocation entry points and their default generation arguments. -/

/-- GC generations (header lines 9-14). -/
inductive GCGeneration where
  | GCGen0
  | GCGen1
  | GCGen2
deriving DecidableEq, Repr

/-- The four kinds of GC-managed objects the allocators create. -/
inductive GCObjectKind where
  | table
  | function
  | closure
  | string
deriving DecidableEq, Repr

/-- A GC object as the claims need it: its kind and its `generation_` field. -/
structure GCObjectRec where
  kind : GCObjectKind
  generation_ : GCGeneration
deriving DecidableEq, Repr

/-- The GC state: the three generation lists (object ids, newest first, the
C++ generation being an intrusive list that receives new objects at its head)
and the allocated objects addressed by id. -/
structure GC where
  gen0_ : List Nat
  gen1_ : List Nat
  gen2_ : List Nat
  objects : List GCObjectRec
deriving DecidableEq, Repr

/-- Modelled from the spec: GC.cpp is not under src/; spec section 4.2 says
the allocators "return a fresh GC object, placed in the generation specified
by the caller", so allocation appends a fresh object record and links its id
into the chosen generation. -/
def GC.alloc (g : GC) (k : GCObjectKind) (gen : GCGeneration) : GC × Nat :=
  let id := g.objects.length
  let g := { g with objects := g.objects ++ [({ kind := k, generation_ := gen } : GCObjectRec)] }
  match gen with
  | .GCGen0 => ({ g with gen0_ := id :: g.gen0_ }, id)
  | .GCGen1 => ({ g with gen1_ := id :: g.gen1_ }, id)
  | .GCGen2 => ({ g with gen2_ := id :: g.gen2_ }, id)

/-- `GC::NewTable` (header line 75).  The `Option` argument models the C++
default argument: `none` is a call site that lets the declared default
`GCGen0` apply. -/
def GC.NewTable (g : GC) (gen : Option GCGeneration) : GC × Nat :=
  g.alloc .table (gen.getD .GCGen0)

/-- `GC::NewFunction` (header line 76); the declared default is `GCGen2`. -/
def GC.NewFunction (g : GC) (gen : Option GCGeneration) : GC × Nat :=
  g.alloc .function (gen.getD .GCGen2)

/-- `GC::NewClosure` (header line 77); the declared default is `GCGen0`. -/
def GC.NewClosure (g : GC) (gen : Option GCGeneration) : GC × Nat :=
  g.alloc .closure (gen.getD .GCGen0)

/-- `GC::NewString` (header line 78); the declared default is `GCGen0`. -/
def GC.NewString (g : GC) (gen : Option GCGeneration) : GC × Nat :=
  g.alloc .string (gen.getD .GCGen0)

/-- The id list of one generation. -/
def GC.genList (g : GC) (gen : GCGeneration) : List Nat :=
  match gen with
  | .GCGen0 => g.gen0_
  | .GCGen1 => g.gen1_
  | .GCGen2 => g.gen2_

/-- The allocation result `r` of a call on `g` placed its fresh object into
generation `gen`: the fresh id heads that generation's list, the other two
generations are untouched, and the object record carries `gen`. -/
def placedInGen (g : GC) (r : GC × Nat) (gen : GCGeneration) : Prop :=
  r.2 = g.objects.length ∧
  r.1.genList gen = r.2 :: g.genList gen ∧
  (∀ h : GCGeneration, h ≠ gen → r.1.genList h = g.genList h) ∧
  (r.1.objects.getD r.2 ⟨.table, .GCGen0⟩).generation_ = gen ∧
  r.1.objects = g.objects ++ [⟨(r.1.objects.getD r.2 ⟨.table, .GCGen0⟩).kind, gen⟩]

theorem getD_concat_length {α : Type} (l : List α) (a d : α) :
    (l ++ [a]).getD l.length d = a := by
  induction l with
  | nil => rfl
  | cons x t ih => simpa using ih

theorem placedInGen_alloc (g : GC) (k : GCObjectKind) (gen : GCGeneration) :
    placedInGen g (g.alloc k gen) gen := by
  have hobj : ((g.alloc k gen).1).objects = g.objects ++ [⟨k, gen⟩] := by
    unfold GC.alloc
    cases gen <;> rfl
  have hid : (g.alloc k gen).2 = g.objects.length := by
    unfold GC.alloc
    cases gen <;> rfl
  have hget : ((g.alloc k gen).1).objects.getD ((g.alloc k gen).2)
      (⟨.table, .GCGen0⟩ : GCObjectRec) = ⟨k, gen⟩ := by
    rw [hobj, hid]
    exact getD_concat_length g.objects ⟨k, gen⟩ ⟨.table, .GCGen0⟩
  refine ⟨hid, ?_, ?_, ?_, ?_⟩
  · unfold GC.alloc GC.genList
    cases gen <;> rfl
  · intro h hne
    unfold GC.alloc GC.genList
    cases gen <;> cases h <;> first | exact absurd rfl hne | rfl
  · rw [hget]
  · rw [hget, hobj]

/-! ## Shared concrete inputs for the claim theorems -/

/-- A number token at line 1. -/
def tokNum (n : Int) : TokenDetail := ⟨.Token_Number, n, "", 1⟩

/-- An identifier token at line 1. -/
def tokId (name : String) : TokenDetail := ⟨.Token_Id, 0, name, 1⟩

/-- A string token at line 1. -/
def tokStr (str : String) : TokenDetail := ⟨.Token_String, 0, str, 1⟩

/-- The state in which compilation of a chunk starts: no functions, no
closures, empty stack and scope structures, no current function. -/
def initState : CGState := ⟨[], [], 0, [], [], [], [], none⟩

/-- A state in the middle of compiling the body block of a chunk: one fresh
current function, one generation-state frame, one open scope owned by it. -/
def midState (modName : String) : CGState :=
  ⟨[⟨modName, 0, none, [], [], [], 0⟩], [], 0, [], [], [⟨0, some 0⟩],
   [⟨[], [], []⟩], some 0⟩

/-- The number of local names a statement explicitly declares. -/
def stmtDeclaredLocals : Stmt → Nat
  | .localNameList names _ => names.length
  | .funcCallStmt _ _ => 0
  | .stubStmt => 0

/-! ## Helpers for following the current function through a visit -/

theorem getD_set_self {α : Type} (l : List α) (i : Nat) (a d : α)
    (h : i < l.length) : (l.set i a).getD i d = a := by
  induction l generalizing i with
  | nil => simp at h
  | cons x t ih =>
      cases i with
      | zero => rfl
      | succ j => exact ih j (by simpa using h)

theorem cur_func_modifyFunc (s : CGState) (g : Function → Function) :
    (s.modifyFunc g).cur_func = s.cur_func := by
  unfold CGState.modifyFunc
  split <;> rfl

theorem functions_length_modifyFunc (s : CGState) (g : Function → Function) :
    (s.modifyFunc g).functions.length = s.functions.length := by
  unfold CGState.modifyFunc
  split
  · rfl
  · simp

theorem curFunc_modifyFunc (s : CGState) (g : Function → Function) (i : Nat)
    (h1 : s.cur_func = some i) (h2 : i < s.functions.length) :
    (s.modifyFunc g).curFunc = g s.curFunc := by
  obtain ⟨fns, cls, gl, st, nl, scps, gs, cf⟩ := s
  simp only at h1 h2
  subst h1
  simp only [CGState.modifyFunc, CGState.curFunc]
  exact getD_set_self fns i _ default h2

theorem cur_func_setNextRegister (s : CGState) (r : Int) :
    (s.setNextRegister r).cur_func = s.cur_func :=
  cur_func_modifyFunc s _

theorem functions_length_setNextRegister (s : CGState) (r : Int) :
    (s.setNextRegister r).functions.length = s.functions.length :=
  functions_length_modifyFunc s _

theorem curFunc_exitScope (s : CGState) : (s.exitScope).curFunc = s.curFunc := by
  unfold CGState.exitScope
  split <;> rfl

theorem cur_func_exitScope (s : CGState) : (s.exitScope).cur_func = s.cur_func := by
  unfold CGState.exitScope
  split <;> rfl

/-! ## C3: register watermark across statements and blocks -/

/-- The bare-call statement `f-call with a number callee and no arguments`,
visited mid-block: the callee terminator receives `exp_value_count = 1` from
`Visit(NormalFuncCall*)` and allocates a register that is never released by
the statement. -/
def c3Stmt : Stmt := .funcCallStmt (.terminator (tokNum 7)) (.expList none)

unseal visitExpr visitNormalFuncCall visitFuncCallArgs visitExpList visitExpListLoop emitMovesFrom in
/-- C3 counterexample: visiting the bare function-call statement `c3Stmt`
(which declares no locals) from a fresh function state raises the
next-register watermark from 0 to 1, so the watermark is not conserved
statement by statement. -/
theorem c3_counterexample :
    (visitStmt c3Stmt (midState "m3")).curFunc.next_register_ ≠
      (midState "m3").curFunc.next_register_
        + Int.ofNat (stmtDeclaredLocals c3Stmt) := by
  decide

/-- C3 amended: watermark conservation holds at block granularity (the block
explicitly restores the watermark it recorded on entry); it fails at
statement granularity for bare function-call statements, which leave the
watermark raised by the registers allocated for the callee and arguments. -/
theorem c3_block_watermark_conservation (b : Block) (s : CGState) (i : Nat)
    (h1 : s.cur_func = some i) (h2 : i < s.functions.length) :
    (visitBlock b s).curFunc.next_register_ = s.curFunc.next_register_ := by
  simp only [visitBlock]
  have hobs := obs_visitStmts b.statements_ (s.enterScope s.cur_func)
  have hcf : (b.statements_.foldl (fun t st => visitStmt st t)
      (s.enterScope s.cur_func)).cur_func = some i := by
    rw [obs_proj_curFunc hobs]
    exact h1
  have hlen : i < (b.statements_.foldl (fun t st => visitStmt st t)
      (s.enterScope s.cur_func)).functions.length := by
    rw [obs_proj_funcsLen hobs]
    exact h2
  set s2 := b.statements_.foldl (fun t st => visitStmt st t)
      (s.enterScope s.cur_func) with hs2
  set reg := (s.enterScope s.cur_func).getNextRegister with hreg
  have e3 : (s2.setNextRegister reg).curFunc = s2.curFunc.SetNextRegister reg :=
    curFunc_modifyFunc s2 _ i hcf hlen
  have hcf3 : (s2.setNextRegister reg).cur_func = some i := by
    rw [cur_func_setNextRegister]
    exact hcf
  have hlen3 : i < (s2.setNextRegister reg).functions.length := by
    rw [functions_length_setNextRegister]
    exact hlen
  have e4 : ((s2.setNextRegister reg).addInstruction
      (.ACode .OpType_SetTop reg) 0).curFunc
      = ((s2.setNextRegister reg).curFunc).AddInstruction (.ACode .OpType_SetTop reg) 0 :=
    curFunc_modifyFunc _ _ i hcf3 hlen3
  rw [curFunc_exitScope, e4, e3]
  rfl

/-- C3 witness: a concrete block containing the bare call, visited from the
fresh mid-compilation state, ends with the watermark it started with. -/
theorem c3_witness :
    (visitBlock ⟨[c3Stmt], false⟩ (midState "m3w")).curFunc.next_register_ =
      (midState "m3w").curFunc.next_register_ :=
  c3_block_watermark_conservation ⟨[c3Stmt], false⟩ (midState "m3w") 0 rfl
    (by decide)

/-! ## C8: generation-state stack depth across a chunk visit -/

/-- C8 counterexample: visiting a chunk pushes a per-function generation
state and never pops it, so the stack is deeper after the visit than before
it. -/
theorem c8_counterexample :
    (visitChunk ⟨"m8", ⟨[], false⟩⟩ initState).gen_states.length ≠
      initState.gen_states.length := by
  decide

/-- C8 amended: `Visit(Chunk*)` pushes one per-function generation state and
does not pop it on return, so the generation-state stack is exactly one
deeper after every chunk visit (`PopFunctionState` exists but is never
called; `Visit(FunctionBody*)` is an empty stub that neither pushes nor
pops). -/
theorem c8_state_push_without_pop (c : Chunk) (s : CGState) :
    (visitChunk c s).gen_states.length = s.gen_states.length + 1 := by
  simp only [visitChunk]
  have hobs := obs_visitBlock c.block_
      { s with functions := s.functions ++ [⟨c.module_, 0, s.cur_func, [], [], [], 0⟩],
               cur_func := some s.functions.length,
               gen_states := (⟨[], [], []⟩ : FunctionGenerateState) :: s.gen_states }
  have h := obs_proj_genlen hobs
  simpa using h

/-! ## C9: GC allocation generations -/

/-- C9: with no generation supplied the allocators use the defaults declared
in the header (`GCGen0` for tables, closures and strings, `GCGen2` for
functions), and each allocator places the fresh object into whatever
generation the caller supplies explicitly. -/
theorem c9_allocation_generations (g : GC) :
    placedInGen g (g.NewTable none) .GCGen0 ∧
    placedInGen g (g.NewFunction none) .GCGen2 ∧
    placedInGen g (g.NewClosure none) .GCGen0 ∧
    placedInGen g (g.NewString none) .GCGen0 ∧
    (∀ gen : GCGeneration,
      placedInGen g (g.NewTable (some gen)) gen ∧
      placedInGen g (g.NewFunction (some gen)) gen ∧
      placedInGen g (g.NewClosure (some gen)) gen ∧
      placedInGen g (g.NewString (some gen)) gen) :=
  ⟨placedInGen_alloc g .table .GCGen0,
   placedInGen_alloc g .function .GCGen2,
   placedInGen_alloc g .closure .GCGen0,
   placedInGen_alloc g .string .GCGen0,
   fun gen =>
     ⟨placedInGen_alloc g .table gen, placedInGen_alloc g .function gen,
      placedInGen_alloc g .closure gen, placedInGen_alloc g .string gen⟩⟩

/-! ## C10: pops on empty value-count stacks -/

/-- The bare call statement for C10, `print-like call with a string-form
argument`, visited with no pending expected-result count. -/
def c10Stmt : Stmt :=
  .funcCallStmt (.terminator (tokId "f")) (.strOrTable (.terminator (tokStr "x")))

unseal visitExpr visitNormalFuncCall visitFuncCallArgs visitExpList visitExpListLoop emitMovesFrom in
/-- C10: both pops return `0` and leave the state untouched when their stack
is empty, so a function call visited as a statement (no parent pushed an
expected-result count) is silently compiled as expecting zero results: the
emitted `Call` carries `result_count = 0`. -/
theorem c10_pop_empty_returns_zero :
    (∀ fs : FunctionGenerateState, fs.exp_value_count_ = [] →
      fs.PopExpValueCount = (0, fs)) ∧
    (∀ fs : FunctionGenerateState, fs.exp_list_value_count_ = [] →
      fs.PopExpListValueCount = (0, fs)) ∧
    (visitStmt c10Stmt (midState "mX")).curFunc.instructions_.getLast?
      = some (.AsBxCode .OpType_Call 0 0, 0) := by
  refine ⟨?_, ?_, ?_⟩
  · intro fs h
    unfold FunctionGenerateState.PopExpValueCount
    rw [h]
  · intro fs h
    unfold FunctionGenerateState.PopExpListValueCount
    rw [h]
  · decide

/-- C10 witness: the empty-stack pops at the concrete empty state. -/
theorem c10_witness :
    FunctionGenerateState.PopExpValueCount ⟨[], [], []⟩ = (0, ⟨[], [], []⟩) ∧
    FunctionGenerateState.PopExpListValueCount ⟨[], [], []⟩ = (0, ⟨[], [], []⟩) :=
  ⟨c10_pop_empty_returns_zero.1 ⟨[], [], []⟩ rfl,
   c10_pop_empty_returns_zero.2.1 ⟨[], [], []⟩ rfl⟩

/-! ## C2: emission for `local a, b = 1, 2` -/

/-- The statement `local a, b = 1, 2`. -/
def c2Stmt : Stmt :=
  .localNameList [tokId "a", tokId "b"]
    (some (.mk [.terminator (tokNum 1), .terminator (tokNum 2)]))

/-- The state after visiting `local a, b = 1, 2` at the start of a fresh
function. -/
def c2Run : CGState := visitStmt c2Stmt (midState "m2")

unseal visitExpr visitNormalFuncCall visitFuncCallArgs visitExpList visitExpListLoop emitMovesFrom in
/-- C2 counterexample: the statement does not emit
`LoadConst r0 0; LoadConst r1 1; Move r0 r0; Move r1 r1; SetTop r0`
(the claimed sequence with `rA = r0`, `rB = r1`): the initialiser constants
are in fact loaded into registers `r2` and `r3`, above the locals. -/
theorem c2_counterexample :
    c2Run.curFunc.instructions_.map Prod.fst ≠
      [.ABCode .OpType_LoadConst 0 0, .ABCode .OpType_LoadConst 1 1,
       .ABCode .OpType_Move 0 0, .ABCode .OpType_Move 1 1,
       .ACode .OpType_SetTop 0] := by
  decide

unseal visitExpr visitNormalFuncCall visitFuncCallArgs visitExpList visitExpListLoop emitMovesFrom in
/-- C2 amended: compiling `local a, b = 1, 2` yields pool constants `[1, 2]`
and emits `LoadConst r2 0; LoadConst r3 1; Move r0 r2; Move r1 r3;
SetTop r2`, with local `a` at `r0` and `b` at `r1`: the name list has already
advanced the watermark past the locals' registers, so the initialiser
temporaries land at `r2`, `r3` and the trailing `SetTop` restores to `r2`,
the watermark right after the declarations. -/
theorem c2_local_decl_emission :
    c2Run.curFunc.const_numbers_ = [1, 2] ∧
    c2Run.curFunc.instructions_.map Prod.fst =
      [.ABCode .OpType_LoadConst 2 0, .ABCode .OpType_LoadConst 3 1,
       .ABCode .OpType_Move 0 2, .ABCode .OpType_Move 1 3,
       .ACode .OpType_SetTop 2] ∧
    GetNameRegister c2Run.name_list_ ⟨0, some 0⟩ "a" = 0 ∧
    GetNameRegister c2Run.name_list_ ⟨0, some 0⟩ "b" = 1 := by
  refine ⟨by decide, by decide, by decide, by decide⟩

/-! ## C1: chunk visitation -/

/-- C1: visiting a `Chunk` allocates a new `Function` prototype recording the
module name, level 0 and the (nullable) outer function as superior; after the
body block is visited it allocates a `Closure` whose prototype is that
function and whose sole upvalue is the global environment table with the
`Stack` kind, and pushes that closure as a `Closure`-typed value onto the
operand stack, growing the stack by exactly one slot. -/
theorem c1_chunk_closure_push (c : Chunk) (s : CGState) :
    (visitChunk c s).functions.length = s.functions.length + 1 ∧
    ((visitChunk c s).functions.map funcBase).getD s.functions.length
      ("", 0, none) = (c.module_, 0, s.cur_func) ∧
    (visitChunk c s).closures = s.closures ++
      [⟨some s.functions.length, [(s.global_, .Stack)]⟩] ∧
    (visitChunk c s).stack_ = s.stack_ ++
      [⟨.ValueT_Closure, some s.closures.length⟩] ∧
    (visitChunk c s).stack_.length = s.stack_.length + 1 ∧
    (visitChunk c s).cur_func = some s.functions.length := by
  have hobs := obs_visitBlock c.block_
      { s with functions := s.functions ++ [⟨c.module_, 0, s.cur_func, [], [], [], 0⟩],
               cur_func := some s.functions.length,
               gen_states := (⟨[], [], []⟩ : FunctionGenerateState) :: s.gen_states }
  have hlen := obs_proj_funcsLen hobs
  have hmap := obs_proj_funcsMap hobs
  have hcl := obs_proj_closures hobs
  have hst := obs_proj_stack hobs
  have hgl := obs_proj_global hobs
  have hcf := obs_proj_curFunc hobs
  simp only [visitChunk]
  refine ⟨?_, ?_, ?_, ?_, ?_, ?_⟩
  · simp only [hlen]
    simp
  · rw [hmap]
    have h2 := getD_concat_length (s.functions.map funcBase)
        (funcBase ⟨c.module_, 0, s.cur_func, [], [], [], 0⟩) ("", 0, none)
    rw [List.length_map] at h2
    simpa [funcBase] using h2
  · rw [hcl, hgl]
  · rw [hst, hcl]
  · rw [hst, hcl]
    simp
  · exact hcf

/-! ## C4: balance of the two value-count stacks

`stubExpr` collapses the expression nodes whose `Visit` bodies are empty;
they pop nothing, so the claimed balance only holds on ASTs made of the
supported (non-stub) expression forms.  The predicates below single those
out. -/

mutual
def exprSupported : Expr → Bool
  | .terminator _ => true
  | .normalFuncCall caller args => exprSupported caller && argsSupported args
  | .stubExpr => false
termination_by e => sizeOf e
decreasing_by
all_goals simp_wf
all_goals omega

def argsSupported : FuncCallArgs → Bool
  | .strOrTable e => exprSupported e
  | .expList none => true
  | .expList (some l) => expListSupported l
termination_by a => sizeOf a
decreasing_by
all_goals simp_wf
all_goals omega

def expListSupported : ExpList → Bool
  | .mk exps => listExprSupported exps
termination_by l => sizeOf l
decreasing_by
all_goals simp_wf
all_goals omega

def listExprSupported : List Expr → Bool
  | [] => true
  | e :: rest => exprSupported e && listExprSupported rest
termination_by l => sizeOf l
decreasing_by
all_goals simp_wf
all_goals omega
end

def stmtSupported : Stmt → Bool
  | .localNameList _ none => true
  | .localNameList _ (some l) => expListSupported l
  | .funcCallStmt caller args => exprSupported caller && argsSupported args
  | .stubStmt => true

def blockSupported (b : Block) : Bool := b.statements_.all stmtSupported

def chunkSupported (c : Chunk) : Bool := blockSupported c.block_

/-- The two value-count stacks of the current function state. -/
def stk (s : CGState) : List Int × List Int :=
  ((s.curFS).exp_value_count_, (s.curFS).exp_list_value_count_)

theorem stk_modifyFunc (s : CGState) (g : Function → Function) :
    stk (s.modifyFunc g) = stk s := by
  unfold CGState.modifyFunc
  split <;> rfl

theorem stk_addInstruction (s : CGState) (i : Instruction) (l : Nat) :
    stk (s.addInstruction i l) = stk s := stk_modifyFunc s _

theorem stk_setNextRegister (s : CGState) (r : Int) :
    stk (s.setNextRegister r) = stk s := stk_modifyFunc s _

theorem stk_alloca (s : CGState) :
    stk (s.allocaNextRegister).2 = stk s := stk_modifyFunc s _

theorem stk_addConstNumber (s : CGState) (n : Int) :
    stk (s.addConstNumber n).2 = stk s := stk_modifyFunc s _

theorem stk_addConstString (s : CGState) (str : String) :
    stk (s.addConstString str).2 = stk s := stk_modifyFunc s _

theorem stk_enterScope (s : CGState) (owner : Option Nat) :
    stk (s.enterScope owner) = stk s := rfl

theorem stk_exitScope (s : CGState) : stk (s.exitScope) = stk s := by
  unfold CGState.exitScope
  split <;> rfl

theorem gen_exitScope (s : CGState) : (s.exitScope).gen_states = s.gen_states := by
  unfold CGState.exitScope
  split <;> rfl

theorem stk_modifyFS_names (s : CGState)
    (g : FunctionGenerateState → FunctionGenerateState)
    (hg : ∀ fs, (g fs).exp_value_count_ = fs.exp_value_count_ ∧
      (g fs).exp_list_value_count_ = fs.exp_list_value_count_) :
    stk (s.modifyFS g) = stk s := by
  unfold CGState.modifyFS
  split
  · rfl
  · rename_i fs rest heq
    simp [stk, CGState.curFS, heq, (hg fs).1, (hg fs).2]

theorem gen_ne_nil_of_stk1 (s : CGState) (v : Int) (vs : List Int)
    (h : (stk s).1 = v :: vs) : s.gen_states ≠ [] := by
  intro hg
  have h0 : (stk s).1 = [] := by
    simp [stk, CGState.curFS, hg, Inhabited.default]
  rw [h0] at h
  exact List.noConfusion h

theorem gen_ne_nil_of_stk2 (s : CGState) (w : Int) (ws : List Int)
    (h : (stk s).2 = w :: ws) : s.gen_states ≠ [] := by
  intro hg
  have h0 : (stk s).2 = [] := by
    simp [stk, CGState.curFS, hg, Inhabited.default]
  rw [h0] at h
  exact List.noConfusion h

theorem gen_ne_of_obs {s t : CGState} (h : obs s = obs t)
    (hne : t.gen_states ≠ []) : s.gen_states ≠ [] := by
  intro hn
  apply hne
  have hl := obs_proj_genlen h
  rw [hn] at hl
  exact List.eq_nil_of_length_eq_zero hl.symm

theorem stk_pushExpValueCount (s : CGState) (c : Int) (hne : s.gen_states ≠ []) :
    stk (s.pushExpValueCount c) = (c :: (stk s).1, (stk s).2) := by
  unfold CGState.pushExpValueCount CGState.modifyFS
  split
  · rename_i heq
    exact absurd heq hne
  · rename_i fs rest heq
    simp [stk, CGState.curFS, heq, FunctionGenerateState.PushExpValueCount]

theorem stk_pushExpListValueCount (s : CGState) (c : Int)
    (hne : s.gen_states ≠ []) :
    stk (s.pushExpListValueCount c) = ((stk s).1, c :: (stk s).2) := by
  unfold CGState.pushExpListValueCount CGState.modifyFS
  split
  · rename_i heq
    exact absurd heq hne
  · rename_i fs rest heq
    simp [stk, CGState.curFS, heq, FunctionGenerateState.PushExpListValueCount]

theorem popExpValueCount_of_cons (s : CGState) (v : Int) (vs : List Int)
    (h : (stk s).1 = v :: vs) :
    (s.popExpValueCount).1 = v ∧ stk (s.popExpValueCount).2 = (vs, (stk s).2) := by
  unfold CGState.popExpValueCount
  split
  · rename_i heq
    exact absurd heq (gen_ne_nil_of_stk1 s v vs h)
  · rename_i fs rest heq
    have hfs : fs.exp_value_count_ = v :: vs := by
      simpa [stk, CGState.curFS, heq] using h
    unfold FunctionGenerateState.PopExpValueCount
    rw [hfs]
    constructor
    · rfl
    · simp [stk, CGState.curFS, heq]

theorem popExpValueCount_of_nil (s : CGState) (h : (stk s).1 = []) :
    s.popExpValueCount = (0, s) := by
  unfold CGState.popExpValueCount
  split
  · rfl
  · rename_i fs rest heq
    have hfs : fs.exp_value_count_ = [] := by
      simpa [stk, CGState.curFS, heq] using h
    unfold FunctionGenerateState.PopExpValueCount
    rw [hfs]
    dsimp only
    rw [← heq]

theorem popExpListValueCount_of_cons (s : CGState) (w : Int) (ws : List Int)
    (h : (stk s).2 = w :: ws) :
    (s.popExpListValueCount).1 = w ∧
      stk (s.popExpListValueCount).2 = ((stk s).1, ws) := by
  unfold CGState.popExpListValueCount
  split
  · rename_i heq
    exact absurd heq (gen_ne_nil_of_stk2 s w ws h)
  · rename_i fs rest heq
    have hfs : fs.exp_list_value_count_ = w :: ws := by
      simpa [stk, CGState.curFS, heq] using h
    unfold FunctionGenerateState.PopExpListValueCount
    rw [hfs]
    constructor
    · rfl
    · simp [stk, CGState.curFS, heq]

theorem popExpListValueCount_of_nil (s : CGState) (h : (stk s).2 = []) :
    s.popExpListValueCount = (0, s) := by
  unfold CGState.popExpListValueCount
  split
  · rfl
  · rename_i fs rest heq
    have hfs : fs.exp_list_value_count_ = [] := by
      simpa [stk, CGState.curFS, heq] using h
    unfold FunctionGenerateState.PopExpListValueCount
    rw [hfs]
    dsimp only
    rw [← heq]

/-- Every code path of `Visit(Terminator*)` pops exactly one expected value
count and pushes none. -/
theorem stk_visitTerminator (t : TokenDetail) (s : CGState) (v : Int)
    (vs : List Int) (h : (stk s).1 = v :: vs) :
    stk (visitTerminator t s) = (vs, (stk s).2) := by
  obtain ⟨hp1, hp2⟩ := popExpValueCount_of_cons s v vs h
  unfold visitTerminator
  cases t.token_ with
  | Token_Number =>
      dsimp only
      split
      · rw [stk_addInstruction, stk_alloca, stk_addConstNumber, hp2]
      · rw [stk_addConstNumber, hp2]
  | Token_String =>
      dsimp only
      split
      · rw [stk_addInstruction, stk_alloca, stk_addConstString, hp2]
      · rw [stk_addConstString, hp2]
  | Token_Id =>
      dsimp only
      split
      · split
        · rw [stk_addInstruction, stk_addInstruction, stk_alloca,
            stk_addConstString, hp2]
        · rw [stk_addConstString, hp2]
      · split
        · split
          · rw [stk_addInstruction, stk_alloca, hp2]
          · exact hp2
        · exact hp2
  | Token_Other => exact hp2

mutual
/-- A supported expression pops exactly the one count pushed for it. -/
theorem stk_visitExpr : ∀ (e : Expr) (s : CGState) (v : Int) (vs : List Int),
    exprSupported e = true → (stk s).1 = v :: vs →
    stk (visitExpr e s) = (vs, (stk s).2)
  | .terminator t, s, v, vs, _, h => by
      simp only [visitExpr]
      exact stk_visitTerminator t s v vs h
  | .normalFuncCall caller args, s, v, vs, hsup, h => by
      simp only [visitExpr]
      simp only [exprSupported, Bool.and_eq_true] at hsup
      exact stk_visitNormalFuncCall caller args s v vs hsup.1 hsup.2 h
  | .stubExpr, _, _, _, hsup, _ => by
      simp [exprSupported] at hsup
termination_by e _ _ _ _ _ => sizeOf e
decreasing_by
all_goals simp_wf
all_goals omega

theorem stk_visitNormalFuncCall (caller : Expr) (args : FuncCallArgs)
    (s : CGState) (v : Int) (vs : List Int)
    (hsc : exprSupported caller = true) (hsa : argsSupported args = true)
    (h : (stk s).1 = v :: vs) :
    stk (visitNormalFuncCall caller args s) = (vs, (stk s).2) := by
  obtain ⟨hp1, hp2⟩ := popExpValueCount_of_cons s v vs h
  have hne : s.gen_states ≠ [] := gen_ne_nil_of_stk1 s v vs h
  have hne1 : (s.popExpValueCount).2.gen_states ≠ [] :=
    gen_ne_of_obs (obs_popExpValueCount s) hne
  simp only [visitNormalFuncCall]
  have hpush := stk_pushExpValueCount (s.popExpValueCount).2 1 hne1
  rw [hp2] at hpush
  have h1 : (stk ((s.popExpValueCount).2.pushExpValueCount 1)).1 = 1 :: vs := by
    rw [hpush]
  have hE := stk_visitExpr caller ((s.popExpValueCount).2.pushExpValueCount 1)
      1 vs hsc h1
  have hE2 : stk (visitExpr caller ((s.popExpValueCount).2.pushExpValueCount 1))
      = (vs, (stk s).2) := by
    rw [hE, hpush]
  have hneE : (visitExpr caller
      ((s.popExpValueCount).2.pushExpValueCount 1)).gen_states ≠ [] :=
    gen_ne_of_obs (obs_visitExpr caller _)
      (gen_ne_of_obs (obs_pushExpValueCount _ 1) hne1)
  have hA := stk_visitFuncCallArgs args
      (visitExpr caller ((s.popExpValueCount).2.pushExpValueCount 1)) hsa hneE
  rw [stk_addInstruction, hA, hE2]
termination_by sizeOf caller + sizeOf args
decreasing_by
all_goals simp_wf
all_goals try omega
all_goals first
  | (have h9 := argsSizeOfPos args; omega)
  | (have h9 := exprSizeOfPos caller; omega)

theorem stk_visitFuncCallArgs : ∀ (a : FuncCallArgs) (s : CGState),
    argsSupported a = true → s.gen_states ≠ [] →
    stk (visitFuncCallArgs a s) = stk s
  | .strOrTable e, s, hsa, hne => by
      simp only [visitFuncCallArgs]
      simp only [argsSupported] at hsa
      have hpush := stk_pushExpValueCount s 1 hne
      have h1 : (stk (s.pushExpValueCount 1)).1 = 1 :: (stk s).1 := by
        rw [hpush]
      have h2 := stk_visitExpr e (s.pushExpValueCount 1) 1 (stk s).1 hsa h1
      rw [h2, hpush]
  | .expList none, _, _, _ => by simp only [visitFuncCallArgs]
  | .expList (some el), s, hsa, hne => by
      simp only [visitFuncCallArgs]
      simp only [argsSupported] at hsa
      have hpush := stk_pushExpListValueCount s EXP_VALUE_COUNT_ANY hne
      have h1 : (stk (s.pushExpListValueCount EXP_VALUE_COUNT_ANY)).2 =
          EXP_VALUE_COUNT_ANY :: (stk s).2 := by
        rw [hpush]
      have h2 := stk_visitExpList el
          (s.pushExpListValueCount EXP_VALUE_COUNT_ANY)
          EXP_VALUE_COUNT_ANY (stk s).2 hsa h1
      rw [h2, hpush]
termination_by a _ _ _ => sizeOf a
decreasing_by
all_goals simp_wf
all_goals omega

/-- A supported expression list pops exactly its one expected list count. -/
theorem stk_visitExpList : ∀ (l : ExpList) (s : CGState) (w : Int)
    (ws : List Int), expListSupported l = true → (stk s).2 = w :: ws →
    stk (visitExpList l s) = ((stk s).1, ws)
  | .mk exps, s, w, ws, hsl, h => by
      simp only [visitExpList]
      simp only [expListSupported] at hsl
      obtain ⟨hp1, hp2⟩ := popExpListValueCount_of_cons s w ws h
      have hne : (s.popExpListValueCount).2.gen_states ≠ [] :=
        gen_ne_of_obs (obs_popExpListValueCount s)
          (gen_ne_nil_of_stk2 s w ws h)
      rw [stk_visitExpListLoop exps (s.popExpListValueCount).1
        (s.popExpListValueCount).2 hsl hne, hp2]
termination_by l _ _ _ _ _ => sizeOf l
decreasing_by
all_goals simp_wf
all_goals omega

theorem stk_visitExpListLoop : ∀ (l : List Expr) (v : Int) (s : CGState),
    listExprSupported l = true → s.gen_states ≠ [] →
    stk (visitExpListLoop l v s) = stk s
  | [], _, _, _, _ => by simp only [visitExpListLoop]
  | e :: rest, v, s, hsl, hne => by
      simp only [listExprSupported, Bool.and_eq_true] at hsl
      simp only [visitExpListLoop]
      split
      · have hpush := stk_pushExpValueCount s 0 hne
        have h1 : (stk (s.pushExpValueCount 0)).1 = 0 :: (stk s).1 := by
          rw [hpush]
        have h2 := stk_visitExpr e (s.pushExpValueCount 0) 0 (stk s).1 hsl.1 h1
        have hne2 : (visitExpr e (s.pushExpValueCount 0)).gen_states ≠ [] :=
          gen_ne_of_obs (obs_visitExpr e (s.pushExpValueCount 0))
            (gen_ne_of_obs (obs_pushExpValueCount s 0) hne)
        rw [stk_visitExpListLoop rest v _ hsl.2 hne2, h2, hpush]
      · have hpush := stk_pushExpValueCount s
            (if rest.isEmpty then v else 1) hne
        have h1 : (stk (s.pushExpValueCount (if rest.isEmpty then v else 1))).1
            = (if rest.isEmpty then v else 1) :: (stk s).1 := by
          rw [hpush]
        have h2 := stk_visitExpr e _ (if rest.isEmpty then v else 1)
            (stk s).1 hsl.1 h1
        have hne2 : (visitExpr e
            (s.pushExpValueCount (if rest.isEmpty then v else 1))).gen_states
            ≠ [] :=
          gen_ne_of_obs (obs_visitExpr e _)
            (gen_ne_of_obs (obs_pushExpValueCount s _) hne)
        rw [stk_visitExpListLoop rest _ _ hsl.2 hne2, h2, hpush]
termination_by l _ _ _ _ => sizeOf l
decreasing_by
all_goals simp_wf
all_goals omega
end

theorem stk_modifyFS_namesAppend (s : CGState) (pr : Int × TokenDetail) :
    stk (s.modifyFS (fun fs =>
      { fs with names_register_ := fs.names_register_ ++ [pr] })) = stk s :=
  stk_modifyFS_names _ _ (fun _ => ⟨rfl, rfl⟩)

theorem stk_modifyFS_namesClear (s : CGState) :
    stk (s.modifyFS (fun fs => { fs with names_register_ := [] })) = stk s :=
  stk_modifyFS_names _ _ (fun _ => ⟨rfl, rfl⟩)

theorem stk_nameListStep (s : CGState) (n : TokenDetail) :
    stk (nameListStep s n) = stk s := by
  unfold nameListStep
  split
  · rfl
  · split
    · exact stk_modifyFS_namesAppend _ _
    · rw [stk_modifyFS_namesAppend, stk_alloca]
      rfl

theorem stk_visitNameList (names : List TokenDetail) (s : CGState) :
    stk (visitNameList names s) = stk s := by
  unfold visitNameList
  induction names generalizing s with
  | nil => rfl
  | cons n rest ih => rw [List.foldl_cons, ih, stk_nameListStep]

theorem stk_emitMovesFrom (reg : Int) (names i : Nat) (s : CGState) :
    stk (emitMovesFrom reg names i s) = stk s := by
  rw [emitMovesFrom]
  split
  · rw [stk_emitMovesFrom, stk_addInstruction]
  · rfl
termination_by names - i
decreasing_by
all_goals simp_wf
all_goals omega

/-- A supported statement visited with no pending expected-value count leaves
both value-count stacks as they were. -/
theorem stk_visitStmt (st : Stmt) (s : CGState)
    (hsup : stmtSupported st = true) (hne : s.gen_states ≠ [])
    (hv : (stk s).1 = []) : stk (visitStmt st s) = stk s := by
  cases st with
  | stubStmt => simp only [visitStmt]
  | funcCallStmt caller args =>
      simp only [visitStmt, visitNormalFuncCall]
      simp only [stmtSupported, Bool.and_eq_true] at hsup
      rw [popExpValueCount_of_nil s hv]
      have hpush := stk_pushExpValueCount s 1 hne
      have h1 : (stk (s.pushExpValueCount 1)).1 = 1 :: (stk s).1 := by
        rw [hpush]
      have hE := stk_visitExpr caller (s.pushExpValueCount 1) 1 (stk s).1
          hsup.1 h1
      have hE2 : stk (visitExpr caller (s.pushExpValueCount 1)) = stk s := by
        rw [hE, hpush]
      have hneE : (visitExpr caller (s.pushExpValueCount 1)).gen_states ≠ [] :=
        gen_ne_of_obs (obs_visitExpr caller _)
          (gen_ne_of_obs (obs_pushExpValueCount s 1) hne)
      rw [stk_addInstruction,
        stk_visitFuncCallArgs args _ hsup.2 hneE, hE2]
  | localNameList names exp_list =>
      simp only [visitStmt]
      have hs1 := stk_visitNameList names s
      have hne1 : (visitNameList names s).gen_states ≠ [] :=
        gen_ne_of_obs (obs_visitNameList names s) hne
      cases exp_list with
      | none =>
          rw [stk_addInstruction, stk_setNextRegister,
            stk_modifyFS_namesClear, stk_emitMovesFrom, hs1]
      | some el =>
          simp only [stmtSupported] at hsup
          have hpush := stk_pushExpListValueCount (visitNameList names s)
              (Int.ofNat ((visitNameList names s).curFS).names_register_.length)
              hne1
          have h1 : (stk ((visitNameList names s).pushExpListValueCount
              (Int.ofNat ((visitNameList names s).curFS).names_register_.length))).2
              = Int.ofNat ((visitNameList names s).curFS).names_register_.length
                :: (stk (visitNameList names s)).2 := by
            rw [hpush]
          have h2 := stk_visitExpList el _
              (Int.ofNat ((visitNameList names s).curFS).names_register_.length)
              (stk (visitNameList names s)).2 hsup h1
          have h3 : stk (visitExpList el
              ((visitNameList names s).pushExpListValueCount
                (Int.ofNat ((visitNameList names s).curFS).names_register_.length)))
              = stk s := by
            rw [h2, hpush, hs1]
          rw [stk_addInstruction, stk_setNextRegister,
            stk_modifyFS_namesClear, stk_emitMovesFrom, h3]

theorem stk_visitStmts (sts : List Stmt) (s : CGState)
    (hsup : ∀ st ∈ sts, stmtSupported st = true) (hne : s.gen_states ≠ [])
    (hv : (stk s).1 = []) :
    stk (sts.foldl (fun t st => visitStmt st t) s) = stk s := by
  induction sts generalizing s with
  | nil => rfl
  | cons st rest ih =>
      rw [List.foldl_cons]
      have h1 := stk_visitStmt st s (hsup st (List.mem_cons_self st rest)) hne hv
      have hne2 : (visitStmt st s).gen_states ≠ [] :=
        gen_ne_of_obs (obs_visitStmt st s) hne
      have hv2 : (stk (visitStmt st s)).1 = [] := by
        rw [h1]
        exact hv
      rw [ih (visitStmt st s)
        (fun st' hm => hsup st' (List.mem_cons_of_mem st hm)) hne2 hv2, h1]

theorem stk_visitBlock (b : Block) (s : CGState)
    (hsup : blockSupported b = true) (hne : s.gen_states ≠ [])
    (hv : (stk s).1 = []) : stk (visitBlock b s) = stk s := by
  simp only [visitBlock]
  have hsup2 : ∀ st ∈ b.statements_, stmtSupported st = true := by
    simpa [blockSupported, List.all_eq_true] using hsup
  have hfold := stk_visitStmts b.statements_ (s.enterScope s.cur_func) hsup2
      hne hv
  rw [stk_exitScope, stk_addInstruction, stk_setNextRegister, hfold]
  rfl

/-! ## C4 claim theorems -/

/-- A chunk whose initialiser expression is a stub node (here standing for
`BinaryExpression`, whose `Visit` body is empty). -/
def c4Chunk : Chunk :=
  ⟨"m4", ⟨[.localNameList [tokId "a"] (some (.mk [.stubExpr]))], false⟩⟩

unseal visitExpr visitNormalFuncCall visitFuncCallArgs visitExpList visitExpListLoop emitMovesFrom in
/-- C4 counterexample: compiling `local a = e` where `e` is an expression
node with a stub visitor (for example a `BinaryExpression`) leaves the pushed
`exp_value_count` entry unconsumed: the expression was visited but popped
nothing, so net pushes exceed net pops and the per-function stack ends
non-empty. -/
theorem c4_counterexample : (stk (visitChunk c4Chunk initState)).1 ≠ [] := by
  decide

/-- C4 amended: the value-count balance holds for every chunk all of whose
expressions use the supported (non-stub) forms — terminators, normal calls,
call-argument forms and expression lists: each such expression pops exactly
the one count pushed for it, and after the chunk visit both per-function
value-count stacks are empty.  Expression nodes with stub visitors break the
balance by popping nothing. -/
theorem c4_value_count_balance (c : Chunk) (s : CGState)
    (hsup : chunkSupported c = true) : stk (visitChunk c s) = ([], []) := by
  simp only [visitChunk]
  have hne0 : (({ s with
      functions := s.functions ++ [⟨c.module_, 0, s.cur_func, [], [], [], 0⟩],
      cur_func := some s.functions.length,
      gen_states := (⟨[], [], []⟩ : FunctionGenerateState) :: s.gen_states })
        : CGState).gen_states ≠ [] := by
    simp
  have hb := stk_visitBlock c.block_
      { s with
        functions := s.functions ++ [⟨c.module_, 0, s.cur_func, [], [], [], 0⟩],
        cur_func := some s.functions.length,
        gen_states := (⟨[], [], []⟩ : FunctionGenerateState) :: s.gen_states }
      hsup hne0 rfl
  exact hb

unseal exprSupported argsSupported expListSupported listExprSupported in
/-- C4 witness: the balance at the concrete supported chunk `local a = 5`. -/
theorem c4_witness :
    stk (visitChunk ⟨"w4", ⟨[.localNameList [tokId "a"]
      (some (.mk [.terminator (tokNum 5)]))], false⟩⟩ initState) = ([], []) :=
  c4_value_count_balance _ initState (by decide)

/-! ## C5: the `ExpressionList` distribution of expected value counts -/

/-- The expected-value counts pushed for the successive expressions of a list
of length `n` when the popped list count is `v`, written out from the spec's
description: `0` for every expression when `v = 0`, otherwise `v` for the
last expression and `1` for every earlier one, decrementing `v` by the
pushed amount unless it is the `EXP_VALUE_COUNT_ANY` sentinel. -/
def expCounts (v : Int) : Nat → List Int
  | 0 => []
  | n + 1 =>
      if v = 0 then 0 :: expCounts v n
      else
        (if n = 0 then v else 1) ::
          expCounts (if v ≠ EXP_VALUE_COUNT_ANY
                     then v - (if n = 0 then v else 1) else v) n

theorem expCounts_length : ∀ (n : Nat) (v : Int), (expCounts v n).length = n := by
  intro n
  induction n with
  | zero => intro v; simp [expCounts]
  | succ m ih =>
      intro v
      by_cases hv : v = 0 <;> simp [expCounts, hv, ih]

theorem expCounts_dropLast : ∀ (n : Nat) (v : Int),
    ∀ c ∈ (expCounts v n).dropLast, c = 0 ∨ c = 1 := by
  intro n
  induction n with
  | zero => intro v c hc; simp [expCounts] at hc
  | succ m ih =>
      intro v c hc
      cases m with
      | zero =>
          by_cases hv : v = 0 <;> simp [expCounts, hv] at hc
      | succ k =>
          by_cases hv : v = 0
          · rw [show expCounts v (k + 1 + 1) = 0 :: expCounts v (k + 1) by
                simp [expCounts, hv]] at hc
            rw [List.dropLast_cons_of_ne_nil (by
                have hl := expCounts_length (k + 1) v
                intro hnil
                rw [hnil] at hl
                simp at hl)] at hc
            rcases List.mem_cons.mp hc with h0 | h0
            · exact Or.inl h0
            · exact ih v c h0
          · rw [show expCounts v (k + 1 + 1) = 1 ::
                expCounts (if v ≠ EXP_VALUE_COUNT_ANY then v - 1 else v)
                  (k + 1) by simp [expCounts, hv]] at hc
            rw [List.dropLast_cons_of_ne_nil (by
                have hl := expCounts_length (k + 1)
                  (if v ≠ EXP_VALUE_COUNT_ANY then v - 1 else v)
                intro hnil
                rw [hnil] at hl
                simp at hl)] at hc
            rcases List.mem_cons.mp hc with h0 | h0
            · exact Or.inr h0
            · exact ih (if v ≠ EXP_VALUE_COUNT_ANY then v - 1 else v) c h0

/-- The loop of `Visit(ExpressionList*)` refines the spec's description: it
is the fold that pushes the precomputed count `expCounts v` for each
expression and then visits it. -/
theorem visitExpListLoop_eq_zip : ∀ (exps : List Expr) (v : Int) (s : CGState),
    visitExpListLoop exps v s =
      (exps.zip (expCounts v exps.length)).foldl
        (fun t p => visitExpr p.1 (t.pushExpValueCount p.2)) s := by
  intro exps
  induction exps with
  | nil => intro v s; simp [visitExpListLoop, expCounts]
  | cons e rest ih =>
      intro v s
      by_cases hv : v = 0
      · subst hv
        rw [show expCounts 0 (e :: rest).length = 0 :: expCounts 0 rest.length
            by simp [expCounts, List.length_cons]]
        rw [List.zip_cons_cons, List.foldl_cons]
        simp only [visitExpListLoop, if_pos rfl]
        exact ih 0 (visitExpr e (s.pushExpValueCount 0))
      · by_cases hre : rest.isEmpty
        · have hnil : rest = [] := List.isEmpty_iff.mp hre
          subst hnil
          rw [show expCounts v [e].length = [v] by simp [expCounts, hv]]
          rw [List.zip_cons_cons, List.foldl_cons]
          simp only [visitExpListLoop, if_neg hv, List.isEmpty_nil, if_pos,
            List.zip_nil_left, List.foldl_nil]
        · have hlen0 : rest.length ≠ 0 := by
            intro h0
            exact hre (by simp [List.isEmpty_iff, List.length_eq_zero.mp h0])
          rw [show expCounts v (e :: rest).length = 1 ::
              expCounts (if v ≠ EXP_VALUE_COUNT_ANY then v - 1 else v)
                rest.length by
            simp [expCounts, List.length_cons, hv, hlen0]]
          rw [List.zip_cons_cons, List.foldl_cons]
          simp only [visitExpListLoop, if_neg hv, if_neg hre]
          exact ih (if v ≠ EXP_VALUE_COUNT_ANY then v - 1 else v)
            (visitExpr e (s.pushExpValueCount 1))

/-- C5: `Visit(ExpressionList*)` pops one value `V` from
`exp_list_value_count`, then visits each expression having pushed exactly the
count the spec describes — `0` everywhere if `V = 0`, else `V` for the last
expression and `1` for every earlier one, with `V` decremented by the pushed
amount except at the `ExpValueCountAny` sentinel — so only the final
expression of a list can be asked for more than one value. -/
theorem c5_expression_list_distribution (exps : List Expr) (s : CGState)
    (V : Int) (ws : List Int) (h : (stk s).2 = V :: ws) :
    ((s.popExpListValueCount).1 = V ∧
      visitExpList (.mk exps) s =
        (exps.zip (expCounts V exps.length)).foldl
          (fun t p => visitExpr p.1 (t.pushExpValueCount p.2))
          (s.popExpListValueCount).2) ∧
    (∀ c ∈ (expCounts V exps.length).dropLast, c = 0 ∨ c = 1) := by
  obtain ⟨hp1, _⟩ := popExpListValueCount_of_cons s V ws h
  refine ⟨⟨hp1, ?_⟩, expCounts_dropLast exps.length V⟩
  simp only [visitExpList]
  rw [visitExpListLoop_eq_zip, hp1]

/-- A state mid-compilation whose `exp_list_value_count` stack holds `2`. -/
def c5S : CGState :=
  ⟨[⟨"m5", 0, none, [], [], [], 0⟩], [], 0, [], [], [⟨0, some 0⟩],
   [⟨[], [], [2]⟩], some 0⟩

/-- C5 witness: the distribution at a concrete two-expression list with an
expected count of 2. -/
theorem c5_witness :
    ((c5S.popExpListValueCount).1 = 2 ∧
      visitExpList (.mk [.terminator (tokNum 1), .terminator (tokNum 2)]) c5S =
        (([.terminator (tokNum 1), .terminator (tokNum 2)] : List Expr).zip
          (expCounts 2 2)).foldl
          (fun t p => visitExpr p.1 (t.pushExpValueCount p.2))
          (c5S.popExpListValueCount).2) ∧
    (∀ c ∈ (expCounts 2 2).dropLast, c = 0 ∨ c = 1) :=
  c5_expression_list_distribution
    [.terminator (tokNum 1), .terminator (tokNum 2)] c5S 2 [] rfl

/-! ## C6: adding names to the current scope -/

theorem name_list_modifyFunc (s : CGState) (g : Function → Function) :
    (s.modifyFunc g).name_list_ = s.name_list_ := by
  unfold CGState.modifyFunc
  split <;> rfl

theorem name_list_modifyFS (s : CGState)
    (g : FunctionGenerateState → FunctionGenerateState) :
    (s.modifyFS g).name_list_ = s.name_list_ := by
  unfold CGState.modifyFS
  split <;> rfl

theorem getNextRegister_modifyFS (s : CGState)
    (g : FunctionGenerateState → FunctionGenerateState) :
    (s.modifyFS g).getNextRegister = s.getNextRegister := by
  unfold CGState.modifyFS
  split <;> rfl

theorem curFS_modifyFS (s : CGState)
    (g : FunctionGenerateState → FunctionGenerateState)
    (hne : s.gen_states ≠ []) : (s.modifyFS g).curFS = g s.curFS := by
  unfold CGState.modifyFS
  split
  · rename_i heq
    exact absurd heq hne
  · rename_i fs rest heq
    simp [CGState.curFS, heq]

theorem curFS_modifyFunc (s : CGState) (g : Function → Function) :
    (s.modifyFunc g).curFS = s.curFS := by
  unfold CGState.modifyFunc
  split <;> rfl

theorem gen_states_modifyFunc (s : CGState) (g : Function → Function) :
    (s.modifyFunc g).gen_states = s.gen_states := by
  unfold CGState.modifyFunc
  split <;> rfl

theorem gen_states_alloca (s : CGState) :
    ((s.allocaNextRegister).2).gen_states = s.gen_states :=
  gen_states_modifyFunc s _

theorem name_list_alloca (s : CGState) :
    ((s.allocaNextRegister).2).name_list_ = s.name_list_ :=
  name_list_modifyFunc s _

theorem curFS_alloca (s : CGState) :
    ((s.allocaNextRegister).2).curFS = s.curFS :=
  curFS_modifyFunc s _

theorem getNextRegister_alloca (s : CGState) (i : Nat)
    (h1 : s.cur_func = some i) (h2 : i < s.functions.length) :
    ((s.allocaNextRegister).2).getNextRegister = s.getNextRegister + 1 := by
  have h := curFunc_modifyFunc s (fun f => (f.AllocaNextRegister).1) i h1 h2
  show ((s.modifyFunc (fun f => (f.AllocaNextRegister).1)).curFunc).GetNextRegister
      = s.getNextRegister + 1
  rw [h]
  rfl

/-- C6: for each identifier token, `Visit(NameList*)` adds the name to the
current scope at the current next register — advancing the watermark by
exactly one when the name is new to the scope, and reusing the previously
assigned register with no watermark advance when the name already exists —
and in both cases appends `(register, token)` to the pending names buffer. -/
theorem c6_namelist_scope_binding (s : CGState) (n : TokenDetail)
    (sc : ScopeRec) (i : Nat) (hsc : s.scopes.head? = some sc)
    (hf : s.cur_func = some i) (hlen : i < s.functions.length)
    (hg : s.gen_states ≠ []) :
    (∀ rest, visitNameList (n :: rest) s =
      visitNameList rest (nameListStep s n)) ∧
    (IsBelongsToScope s.name_list_ sc n.str_ = none →
      (nameListStep s n).getNextRegister = s.getNextRegister + 1 ∧
      (nameListStep s n).name_list_ =
        s.name_list_ ++ [⟨n.str_, s.getNextRegister⟩] ∧
      ((nameListStep s n).curFS).names_register_ =
        (s.curFS).names_register_ ++ [(s.getNextRegister, n)]) ∧
    (∀ r : Int, IsBelongsToScope s.name_list_ sc n.str_ = some r →
      (nameListStep s n).getNextRegister = s.getNextRegister ∧
      (nameListStep s n).name_list_ = s.name_list_ ∧
      ((nameListStep s n).curFS).names_register_ =
        (s.curFS).names_register_ ++ [(r, n)]) := by
  refine ⟨fun rest => rfl, ?_, ?_⟩
  · intro hb
    unfold nameListStep
    rw [hsc]
    dsimp only
    rw [hb]
    dsimp only
    refine ⟨?_, ?_, ?_⟩
    · rw [getNextRegister_modifyFS]
      exact getNextRegister_alloca
        { s with name_list_ := s.name_list_ ++
            [({ name_ := n.str_, register_ := s.getNextRegister } : ScopeName)] }
        i hf hlen
    · rw [name_list_modifyFS, name_list_alloca]
    · have hg2 : ((({ s with name_list_ := s.name_list_ ++
          [({ name_ := n.str_, register_ := s.getNextRegister } : ScopeName)] }
          : CGState).allocaNextRegister).2).gen_states ≠ [] := by
        rw [gen_states_alloca]
        exact hg
      rw [curFS_modifyFS _ _ hg2, curFS_alloca]
      rfl
  · intro r hb
    unfold nameListStep
    rw [hsc]
    dsimp only
    rw [hb]
    dsimp only
    refine ⟨?_, ?_, ?_⟩
    · rw [getNextRegister_modifyFS]
    · rw [name_list_modifyFS]
    · rw [curFS_modifyFS _ _ hg]

/-- C6 witness: adding the fresh name `a` at the start of a fresh function
advances the watermark from 0 to 1 and binds `a` to register 0. -/
theorem c6_witness :
    (nameListStep (midState "w6") (tokId "a")).getNextRegister =
      (midState "w6").getNextRegister + 1 ∧
    (nameListStep (midState "w6") (tokId "a")).name_list_ =
      (midState "w6").name_list_ ++ [⟨"a", (midState "w6").getNextRegister⟩] :=
  ⟨(((c6_namelist_scope_binding (midState "w6") (tokId "a") ⟨0, some 0⟩ 0 rfl
      rfl (by decide) (by decide)).2.1) rfl).1,
   (((c6_namelist_scope_binding (midState "w6") (tokId "a") ⟨0, some 0⟩ 0 rfl
      rfl (by decide) (by decide)).2.1) rfl).2.1⟩

/-! ## C7: scope exit truncates the shared name list -/

theorem IsBelongs_none_of_absent (names : List ScopeName) (sc : ScopeRec)
    (nm : String) (h : ∀ e ∈ names, e.name_ ≠ nm) :
    IsBelongsToScope names sc nm = none := by
  unfold IsBelongsToScope
  rw [List.find?_eq_none.mpr]
  · rfl
  · intro x hx
    simp [h x (List.drop_subset sc.start_ names hx)]

theorem GetBlongs_none_of_absent (scopes : List ScopeRec)
    (names : List ScopeName) (nm : String) (h : ∀ e ∈ names, e.name_ ≠ nm) :
    GetBlongsToScope scopes names nm = none := by
  induction scopes with
  | nil => rfl
  | cons sc rest ih =>
      unfold GetBlongsToScope
      rw [IsBelongs_none_of_absent names sc nm h]
      simpa using ih

theorem IsBelongs_isSome_of_witness (names : List ScopeName) (sc : ScopeRec)
    (nm : String) (j : Nat) (hle : sc.start_ ≤ j) (hj : j < names.length)
    (hname : (names.getD j ⟨"", 0⟩).name_ = nm) :
    (IsBelongsToScope names sc nm).isSome = true := by
  have hx : names[j]? = some (names.getD j ⟨"", 0⟩) := by
    rw [List.getD_eq_getElem?_getD, List.getElem?_eq_getElem hj]
    rfl
  have hd : (names.drop sc.start_)[j - sc.start_]? =
      some (names.getD j ⟨"", 0⟩) := by
    rw [List.getElem?_drop, Nat.add_sub_cancel' hle]
    exact hx
  have hsome : (List.find? (fun e => e.name_ == nm)
      (names.drop sc.start_)).isSome = true :=
    List.find?_isSome.mpr
      ⟨names.getD j ⟨"", 0⟩, List.getElem?_mem hd,
       by simp only [hname, beq_self_eq_true]⟩
  unfold IsBelongsToScope
  cases hfind : List.find? (fun e => e.name_ == nm) (names.drop sc.start_) with
  | none =>
      rw [hfind] at hsome
      simp at hsome
  | some x => rfl

theorem GetBlongs_isSome_of_witness : ∀ (scopes : List ScopeRec)
    (names : List ScopeName) (nm : String) (last : ScopeRec) (j : Nat),
    scopes.getLast? = some last → last.start_ ≤ j → j < names.length →
    (names.getD j ⟨"", 0⟩).name_ = nm →
    (GetBlongsToScope scopes names nm).isSome = true := by
  intro scopes
  induction scopes with
  | nil =>
      intro names nm last j hlast hle hj hname
      simp at hlast
  | cons sc rest ih =>
      intro names nm last j hlast hle hj hname
      unfold GetBlongsToScope
      by_cases hb : (IsBelongsToScope names sc nm).isSome = true
      · simp [hb]
      · cases rest with
        | nil =>
            have hsc : sc = last := by simpa using hlast
            exact absurd (IsBelongs_isSome_of_witness names sc nm j
              (hsc ▸ hle) hj hname) hb
        | cons r2 rs =>
            rw [if_neg hb]
            rw [List.getLast?_cons_cons] at hlast
            exact ih names nm last j hlast hle hj hname

/-- C7: destroying a scope truncates the shared name list back to the length
recorded when the scope was entered, so a name recorded only above that index
no longer resolves through the scope chain, while a name recorded below it in
a surviving scope's segment still resolves. -/
theorem c7_scope_truncation (s : CGState) (sc : ScopeRec)
    (rest : List ScopeRec) (hs : s.scopes = sc :: rest)
    (hstart : sc.start_ ≤ s.name_list_.length) :
    (s.exitScope).name_list_.length = sc.start_ ∧
    (∀ nm : String, (∀ e ∈ s.name_list_.take sc.start_, e.name_ ≠ nm) →
      GetBlongsToScope (s.exitScope).scopes (s.exitScope).name_list_ nm
        = none) ∧
    (∀ (nm : String) (last : ScopeRec) (j : Nat),
      rest.getLast? = some last → last.start_ ≤ j →
      j < (s.exitScope).name_list_.length →
      ((s.exitScope).name_list_.getD j ⟨"", 0⟩).name_ = nm →
      (GetBlongsToScope (s.exitScope).scopes (s.exitScope).name_list_
        nm).isSome = true) := by
  have he : s.exitScope =
      { s with name_list_ := s.name_list_.take sc.start_, scopes := rest } := by
    unfold CGState.exitScope
    rw [hs]
  rw [he]
  refine ⟨?_, ?_, ?_⟩
  · simpa using hstart
  · intro nm h
    exact GetBlongs_none_of_absent rest (s.name_list_.take sc.start_) nm h
  · intro nm last j hlast hle hj hname
    exact GetBlongs_isSome_of_witness rest (s.name_list_.take sc.start_) nm
      last j hlast hle hj hname

/-- Mid-compilation state with an outer scope holding `x` at register 0 and
an inner scope holding `y` at register 1. -/
def c7S : CGState :=
  ⟨[], [], 0, [], [⟨"x", 0⟩, ⟨"y", 1⟩], [⟨1, some 0⟩, ⟨0, some 0⟩], [], none⟩

/-- C7 witness: after exiting the inner scope, the name list is truncated to
length 1, `y` (defined only in the exited scope) no longer resolves, and `x`
(defined in the surviving outer scope) still resolves. -/
theorem c7_witness :
    (c7S.exitScope).name_list_.length = 1 ∧
    GetBlongsToScope (c7S.exitScope).scopes (c7S.exitScope).name_list_ "y"
      = none ∧
    (GetBlongsToScope (c7S.exitScope).scopes (c7S.exitScope).name_list_
      "x").isSome = true := by
  have h := c7_scope_truncation c7S ⟨1, some 0⟩ [⟨0, some 0⟩] rfl (by decide)
  exact ⟨h.1, h.2.1 "y" (by decide),
    h.2.2 "x" ⟨0, some 0⟩ 0 rfl (by decide) (by decide) (by decide)⟩

end Luna
